import Mathlib

/-
  Verification of the guardian-cli core against its specification.

  The development shallowly embeds the two algorithmic subsystems of the
  repository: the rule-checking engine (diff parsing, glob matching, the
  three rule checkers, exception filtering) and the governance engine
  (eligible-voter resolution, quorum arithmetic, tallying).

  Strings on the engine side are modelled as lists of characters
  (abbreviation Str), since all the relevant Go code manipulates strings
  as sequences.  Go time.Time values are modelled as integers counting
  nanoseconds; time.Now() becomes an explicit parameter called now.
-/

set_option autoImplicit false
set_option maxRecDepth 8000

namespace Guardian

/-- Engine-side strings: a Go string as a list of characters. -/
abbrev Str := List Char

/-! ### Go strings package helpers

Ports of the functions from the Go standard library strings package used
by the engine code, specialised to the one-character cut sets that the
source uses. -/

/-- Go strings.TrimLeft with a single-character cut set. -/
def trimLeftChar (c : Char) (s : Str) : Str :=
  s.dropWhile (fun a => a == c)

/-- Go strings.TrimRight with a single-character cut set. -/
def trimRightChar (c : Char) (s : Str) : Str :=
  (s.reverse.dropWhile (fun a => a == c)).reverse

/-- Go strings.TrimPrefix: drop p from the front of s when it is a front
segment of s, otherwise return s unchanged. -/
def trimPre (p s : Str) : Str :=
  if p.isPrefixOf s then s.drop p.length else s

/-- Go strings.Contains: sub occurs somewhere inside s. -/
def containsSub (s sub : Str) : Bool :=
  s.tails.any (fun t => sub.isPrefixOf t)

/-- Go strings.Split with a single-character separator.  Splitting the
empty string yields one empty field, as in Go. -/
def splitChar (sep : Char) : Str → List Str
  | [] => [[]]
  | c :: rest =>
    if c = sep then [] :: splitChar sep rest
    else
      match splitChar sep rest with
      | l :: ls => (c :: l) :: ls
      | [] => [[c]]

/-- Go strings.Join with the "/" separator. -/
def joinSlash : List Str → Str
  | [] => []
  | [x] => x
  | x :: y :: xs => x ++ '/' :: joinSlash (y :: xs)

/-- Go strings.SplitN(s, pat, 2) for a nonempty pat, reported as the pair
around the leftmost occurrence of pat; none when pat does not occur. -/
def splitFirst (pat : Str) : Str → Option (Str × Str)
  | [] => if pat.isEmpty then some ([], []) else none
  | c :: rest =>
    if pat.isPrefixOf (c :: rest) then some ([], (c :: rest).drop pat.length)
    else
      match splitFirst pat rest with
      | some (a, b) => some (c :: a, b)
      | none => none

/-! ### Go path/filepath Match

A faithful port of Match from the Go standard library (path/filepath,
non-Windows build), the matcher used both by globMatch for patterns with
no recursive wildcard and by exception filtering.  Error results model
Go ErrBadPattern.  The recursions are fuel-indexed; every caller passes
fuel that exceeds the number of loop iterations the Go original would
perform (each iteration of each Go loop consumes at least one character
of the chunk, pattern or name the fuel is derived from), so the
fuel-exhaustion branches are unreachable. -/

/-- The scanning loop of Go scanChunk: split off one chunk, stopping at a
star that is not inside a bracket class; a backslash escapes the next
character. -/
def scanChunkCore : Bool → Str → Str × Str
  | _, [] => ([], [])
  | inrange, c :: rest =>
    if c = '\\' then
      match rest with
      | [] => (['\\'], [])
      | d :: rest2 =>
        let (chunk, rem) := scanChunkCore inrange rest2
        ('\\' :: d :: chunk, rem)
    else if c = '[' then
      let (chunk, rem) := scanChunkCore true rest
      (c :: chunk, rem)
    else if c = ']' then
      let (chunk, rem) := scanChunkCore false rest
      (c :: chunk, rem)
    else if c = '*' ∧ ¬inrange then
      ([], c :: rest)
    else
      let (chunk, rem) := scanChunkCore inrange rest
      (c :: chunk, rem)

/-- Consume the leading stars of a pattern, reporting whether there was
at least one. -/
def dropStars : Str → Bool × Str
  | '*' :: rest => (true, (dropStars rest).2)
  | s => (false, s)

/-- Go scanChunk: gets the next segment of the pattern, a possible
leading star followed by a chunk up to the next star. -/
def scanChunk (pat : Str) : Bool × Str × Str :=
  let (star, rest) := dropStars pat
  let (chunk, rem) := scanChunkCore false rest
  (star, chunk, rem)

/-- Go getEsc: parse one (possibly escaped) character of a bracket
class.  Errors on an empty chunk, a leading dash or closing bracket, a
trailing backslash, and when the class body ends right after the
character. -/
def getEsc : Str → Except Unit (Char × Str)
  | [] => .error ()
  | c :: rest =>
    if c = '-' ∨ c = ']' then .error ()
    else if c = '\\' then
      match rest with
      | [] => .error ()
      | r :: rest2 => if rest2.isEmpty then .error () else .ok (r, rest2)
    else if rest.isEmpty then .error () else .ok (c, rest)

/-- The range-parsing loop inside Go matchChunk for a bracket class: m
accumulates whether the rune r fell in any range, nrange counts parsed
ranges.  Reports the match flag and the chunk after the closing
bracket. -/
def parseRanges : Nat → Char → Str → Bool → Nat → Except Unit (Bool × Str)
  | 0, _, _, _, _ => .error ()
  | fuel + 1, r, chunk, m, nrange =>
    match chunk with
    | ']' :: rest =>
      if nrange > 0 then .ok (m, rest) else .error ()
    | _ =>
      match getEsc chunk with
      | .error _ => .error ()
      | .ok (lo, chunk1) =>
        match chunk1 with
        | '-' :: chunk2 =>
          match getEsc chunk2 with
          | .error _ => .error ()
          | .ok (hi, chunk3) =>
            parseRanges fuel r chunk3 (m || (decide (lo ≤ r) && decide (r ≤ hi))) (nrange + 1)
        | _ =>
          parseRanges fuel r chunk1 (m || (decide (lo ≤ r) && decide (r ≤ lo))) (nrange + 1)

/-- Go matchChunk: match a chunk against the front of the name.  The
result is ok (some rest) on success, ok none when the chunk does not
match (Go failed flag), and an error on a malformed pattern; after a
failure the chunk is still consumed so that syntax errors are always
reported, exactly as in the original. -/
def matchChunk : Nat → Str → Str → Bool → Except Unit (Option Str)
  | 0, _, _, _ => .error ()
  | fuel + 1, chunk, s, failed0 =>
    match chunk with
    | [] => if failed0 then .ok none else .ok (some s)
    | c :: chunkRest =>
      let failed := failed0 || s.isEmpty
      if c = '[' then
        let rs : Char × Str :=
          match s with
          | [] => (Char.ofNat 0, [])
          | a :: as_ => if failed then (Char.ofNat 0, s) else (a, as_)
        let (negated, chunk1) :=
          match chunkRest with
          | '^' :: rest => (true, rest)
          | _ => (false, chunkRest)
        match parseRanges (chunk1.length + 1) rs.1 chunk1 false 0 with
        | .error _ => .error ()
        | .ok (m, chunk2) =>
          matchChunk fuel chunk2 rs.2 (failed || (m == negated))
      else if c = '?' then
        match s with
        | [] => matchChunk fuel chunkRest s failed
        | a :: as_ =>
          if failed then matchChunk fuel chunkRest s failed
          else matchChunk fuel chunkRest as_ (failed || (a == '/'))
      else if c = '\\' then
        match chunkRest with
        | [] => .error ()
        | d :: chunkRest2 =>
          match s with
          | [] => matchChunk fuel chunkRest2 s failed
          | a :: as_ =>
            if failed then matchChunk fuel chunkRest2 s failed
            else matchChunk fuel chunkRest2 as_ (failed || (d != a))
      else
        match s with
        | [] => matchChunk fuel chunkRest s failed
        | a :: as_ =>
          if failed then matchChunk fuel chunkRest s failed
          else matchChunk fuel chunkRest as_ (failed || (c != a))

/-- The syntax-validation loop at the end of Go Match: the match has
already failed, but the remaining pattern is still checked for
well-formedness (returning false on success). -/
def validateTail : Nat → Str → Except Unit Bool
  | 0, _ => .error ()
  | fuel + 1, pat =>
    match pat with
    | [] => .ok false
    | _ =>
      let scanned := scanChunk pat
      match matchChunk (scanned.2.1.length + 1) scanned.2.1 [] false with
      | .error _ => .error ()
      | .ok _ => validateTail fuel scanned.2.2

mutual

/-- The Pattern loop of Go Match. -/
def matchF : Nat → Str → Str → Except Unit Bool
  | 0, _, _ => .error ()
  | fuel + 1, pat, name =>
    match pat with
    | [] => .ok name.isEmpty
    | _ =>
      let scanned := scanChunk pat
      let star := scanned.1
      let chunk := scanned.2.1
      let rest := scanned.2.2
      if star && chunk.isEmpty then
        .ok (!name.contains '/')
      else
        match matchChunk (chunk.length + 1) chunk name false with
        | .error _ => .error ()
        | .ok (some t) =>
          if t.isEmpty || !rest.isEmpty then matchF fuel rest t
          else if star then starLoop fuel chunk rest name
          else validateTail fuel rest
        | .ok none =>
          if star then starLoop fuel chunk rest name
          else validateTail fuel rest

/-- The star loop of Go Match: retry the chunk at successive positions
of the name, stopping at a path separator. -/
def starLoop : Nat → Str → Str → Str → Except Unit Bool
  | 0, _, _, _ => .error ()
  | fuel + 1, chunk, rest, name =>
    match name with
    | [] => validateTail fuel rest
    | c :: nameRest =>
      if c = '/' then validateTail fuel rest
      else
        match matchChunk (chunk.length + 1) chunk nameRest false with
        | .error _ => .error ()
        | .ok (some t) =>
          if rest.isEmpty && !t.isEmpty then starLoop fuel chunk rest nameRest
          else matchF fuel rest t
        | .ok none => starLoop fuel chunk rest nameRest

end

/-- Go path/filepath Match.  The fuel bound dominates the number of
pattern chunks times name positions the Go loops can visit. -/
def filepathMatch (pattern name : Str) : Except Unit Bool :=
  matchF ((pattern.length + 2) * (name.length + 2)) pattern name

/-- The way the engine consumes filepath.Match results: a pattern
matches when Match returns true, and an erroring pattern never
matches. -/
def patMatches (pattern name : Str) : Bool :=
  match filepathMatch pattern name with
  | .ok true => true
  | _ => false

/-! ### globMatch (imports_forbidden.go)

The custom recursive-wildcard glob matcher used by every rule type. -/

/-- The suffix loop of globMatch: try the suffix with filepath.Match
against every tail of the remaining path segments, joined by slashes; a
Match error counts as no match, as in the source. -/
def tailsMatch (suffix : Str) : List Str → Bool
  | [] => false
  | p :: rest =>
    match filepathMatch suffix (joinSlash (p :: rest)) with
    | .ok true => true
    | _ => tailsMatch suffix rest

/-- globMatch from imports_forbidden.go: a pattern with a recursive
wildcard is split at its first occurrence; the part before it (with any
trailing slash trimmed) must lead the path, and the part after it (with
any leading slash trimmed), when nonempty, must filepath-match some
tail of the remaining slash-separated path segments.  Patterns without
a recursive wildcard delegate to filepath.Match. -/
def globMatch (path pattern : Str) : Bool :=
  if containsSub pattern ['*', '*'] then
    match splitFirst ['*', '*'] pattern with
    | none => false
    | some (parts0, parts1) =>
      let suffix := trimLeftChar '/' parts1
      let pre := if parts0.isEmpty then parts0 else trimRightChar '/' parts0
      if !parts0.isEmpty && !(pre.isPrefixOf path) then false
      else if !suffix.isEmpty then
        let remaining := if pre.isEmpty then path else trimLeftChar '/' (trimPre pre path)
        tailsMatch suffix (splitChar '/' remaining)
      else true
  else
    patMatches pattern path

/-- matchesAnyGlob from imports_forbidden.go. -/
def matchesAnyGlob (file : Str) (globs : List Str) : Bool :=
  globs.any (fun g => globMatch file g)

/-- filterFilesByGlobs from diff_pattern_forbidden.go. -/
def filterFilesByGlobs (files globs : List Str) : List Str :=
  files.filter (fun f => matchesAnyGlob f globs)

/-! ### Diff parsing (diff.go, engine package) -/

/-- FileDiff: the path of one file of a unified diff together with its
added lines (stored without the leading plus sign). -/
structure FileDiff where
  path : Str
  addedLines : List Str

/-- The non-separator cases of the ParseDiff line loop: they leave the
accumulated result untouched and only update the current file
accumulator.  A new-file-path line sets the path; old-path and
hunk-header lines are ignored; any other line starting with a plus is
an added line when a file is open. -/
def pdCur (cur : Option FileDiff) (line : Str) : Option FileDiff :=
  if ("+++ b/".toList).isPrefixOf line then
    cur.map (fun c => { c with path := line.drop 6 })
  else if ("--- ".toList).isPrefixOf line then cur
  else if ("@@".toList).isPrefixOf line then cur
  else if (['+']).isPrefixOf line && !cur.isNone then
    cur.map (fun c => { c with addedLines := c.addedLines ++ [line.drop 1] })
  else cur

/-- One step of the line loop of ParseDiff: a file-separator line
flushes the accumulator into the result and opens a fresh one; every
other line is handled by pdCur. -/
def pdStep (st : List FileDiff × Option FileDiff) (line : Str) : List FileDiff × Option FileDiff :=
  if ("diff --git ".toList).isPrefixOf line then
    (st.1 ++ st.2.toList, some ⟨[], []⟩)
  else
    (st.1, pdCur st.2 line)

/-- Flush the pending accumulator at the end of ParseDiff. -/
def pdFinish (st : List FileDiff × Option FileDiff) : List FileDiff :=
  st.1 ++ st.2.toList

/-- ParseDiff from the engine package: empty input parses to nothing;
otherwise the input is split into newline-separated lines which are
folded through the accumulator step. -/
def ParseDiff (diffContent : Str) : List FileDiff :=
  if diffContent.isEmpty then []
  else pdFinish ((splitChar '\n' diffContent).foldl pdStep ([], none))

/-! ### A model of Go regexp

The rule checkers compile their configured patterns with Go
regexp.Compile and test added lines with MatchString.  Re models the
regular expressions of a practical subset of that syntax: literals,
escaped literals, the dot, bracket classes with ranges and negation,
grouping, alternation and the star, plus and question postfix
operators.  Anchors and the remaining RE2 constructs are outside the
subset and are reported as compile errors.  Matching is unanchored
substring matching computed through derivatives, as MatchString is. -/

inductive Re where
  | eps
  | cls (negated : Bool) (ranges : List (Char × Char))
  | cat (a b : Re)
  | alt (a b : Re)
  | star (a : Re)

/-- Does the class description accept the character? -/
def clsAccepts (negated : Bool) (ranges : List (Char × Char)) (c : Char) : Bool :=
  (ranges.any (fun r => decide (r.1 ≤ c) && decide (c ≤ r.2))) != negated

/-- Does the regular expression accept the empty string? -/
def Re.nullable : Re → Bool
  | .eps => true
  | .cls _ _ => false
  | .cat a b => a.nullable && b.nullable
  | .alt a b => a.nullable || b.nullable
  | .star _ => true

/-- The regex that matches nothing, used as a derivative default. -/
def Re.empty : Re := .cls false []

/-- Brzozowski derivative with respect to one character. -/
def Re.deriv : Re → Char → Re
  | .eps, _ => Re.empty
  | .cls n rs, c => if clsAccepts n rs c then .eps else Re.empty
  | .cat a b, c =>
    if a.nullable then .alt (.cat (a.deriv c) b) (b.deriv c)
    else .cat (a.deriv c) b
  | .alt a b, c => .alt (a.deriv c) (b.deriv c)
  | .star a, c => .cat (a.deriv c) (.star a)

/-- Does the regex match some front segment of the string? -/
def reMatchFrom (r : Re) : Str → Bool
  | [] => r.nullable
  | c :: rest => r.nullable || reMatchFrom (r.deriv c) rest

/-- Go MatchString: does the regex match a substring starting at some
position? -/
def reMatchAnywhere (r : Re) (s : Str) : Bool :=
  match s with
  | [] => reMatchFrom r []
  | c :: rest => reMatchFrom r (c :: rest) || reMatchAnywhere r rest

/-- A single-character literal regex. -/
def Re.lit (c : Char) : Re := .cls false [(c, c)]

/-- The dot: any character but a newline. -/
def Re.dot : Re := .cls true [('\n', '\n')]

/-- One (possibly escaped) character of a bracket class body. -/
def classChar (c : Char) (rest : Str) : Except String (Char × Str) :=
  if c = '\\' then
    match rest with
    | [] => .error "trailing backslash in class"
    | d :: rest2 => .ok (d, rest2)
  else .ok (c, rest)

/-- Parse the body of a bracket class after the optional negation mark,
accumulating ranges until the closing bracket. -/
def parseClassBody : Nat → Str → List (Char × Char) → Except String (List (Char × Char) × Str)
  | 0, _, _ => .error "class too long"
  | fuel + 1, s, acc =>
    match s with
    | [] => .error "missing closing bracket"
    | ']' :: rest =>
      if acc.isEmpty then .error "empty character class"
      else .ok (acc.reverse, rest)
    | c :: rest =>
      match classChar c rest with
      | .error e => .error e
      | .ok (lo, rest1) =>
        match rest1 with
        | '-' :: d :: rest2 =>
          if d = ']' then parseClassBody fuel rest1 ((lo, lo) :: acc)
          else
            match classChar d rest2 with
            | .error e => .error e
            | .ok (hi, rest3) => parseClassBody fuel rest3 ((lo, hi) :: acc)
        | _ => parseClassBody fuel rest1 ((lo, lo) :: acc)

/-- Apply postfix repetition operators to a parsed atom. -/
def parseReps (r : Re) : Str → Re × Str
  | '*' :: rest => parseReps (.star r) rest
  | '+' :: rest => parseReps (.cat r (.star r)) rest
  | '?' :: rest => parseReps (.alt r .eps) rest
  | s => (r, s)

mutual

/-- Parse an alternation. -/
def parseAlt : Nat → Str → Except String (Re × Str)
  | 0, _ => .error "regex too deep"
  | fuel + 1, s =>
    match parseCat fuel s with
    | .error e => .error e
    | .ok (r, s1) =>
      match s1 with
      | '|' :: rest =>
        match parseAlt fuel rest with
        | .error e => .error e
        | .ok (r2, s2) => .ok (.alt r r2, s2)
      | _ => .ok (r, s1)

/-- Parse a concatenation of repeated atoms. -/
def parseCat : Nat → Str → Except String (Re × Str)
  | 0, _ => .error "regex too deep"
  | fuel + 1, s =>
    match s with
    | [] => .ok (.eps, s)
    | ')' :: _ => .ok (.eps, s)
    | '|' :: _ => .ok (.eps, s)
    | _ =>
      match parseAtom fuel s with
      | .error e => .error e
      | .ok (r, s1) =>
        let (r2, s2) := parseReps r s1
        match parseCat fuel s2 with
        | .error e => .error e
        | .ok (r3, s3) => .ok (.cat r2 r3, s3)

/-- Parse one atom: a group, a class, a dot, an escape or a literal. -/
def parseAtom : Nat → Str → Except String (Re × Str)
  | 0, _ => .error "regex too deep"
  | fuel + 1, s =>
    match s with
    | [] => .error "missing operand"
    | '(' :: rest =>
      match parseAlt fuel rest with
      | .error e => .error e
      | .ok (r, s1) =>
        match s1 with
        | ')' :: s2 => .ok (r, s2)
        | _ => .error "missing closing paren"
    | ')' :: _ => .error "unexpected closing paren"
    | '|' :: _ => .error "missing operand"
    | '*' :: _ => .error "missing argument to repetition operator"
    | '+' :: _ => .error "missing argument to repetition operator"
    | '?' :: _ => .error "missing argument to repetition operator"
    | '^' :: _ => .error "anchor outside the modelled subset"
    | '$' :: _ => .error "anchor outside the modelled subset"
    | '[' :: rest =>
      let (neg, rest1) :=
        match rest with
        | '^' :: r => (true, r)
        | _ => (false, rest)
      match parseClassBody (rest1.length + 1) rest1 [] with
      | .error e => .error e
      | .ok (ranges, s2) => .ok (.cls neg ranges, s2)
    | '\\' :: rest =>
      match rest with
      | [] => .error "trailing backslash"
      | c :: rest2 => .ok (Re.lit c, rest2)
    | '.' :: rest => .ok (Re.dot, rest)
    | c :: rest => .ok (Re.lit c, rest)

end

/-- The model of Go regexp.Compile over the modelled syntax subset. -/
def compileRe (pattern : Str) : Except String Re :=
  match parseAlt (4 * pattern.length + 8) pattern with
  | .error e => .error e
  | .ok (r, rest) => if rest.isEmpty then .ok r else .error "could not parse regex"

/-- The regex-compilation loop shared by the two diff-pattern checkers:
compile every pattern in order, failing fast with a tagged message on
the first invalid one. -/
def compileAll (tag : String) : List Str → Except String (List Re)
  | [] => .ok []
  | p :: rest =>
    match compileRe p with
    | .error e => .error (tag ++ ": invalid regex: " ++ e)
    | .ok r =>
      match compileAll tag rest with
      | .error e => .error e
      | .ok rs => .ok (r :: rs)

/-! ### Rule configuration values (checker_types.go / getStringSlice)

A rule config is a string-keyed map of loosely typed YAML values, in Go
a map from string to the empty interface.  CVal models the value shapes
getStringSlice distinguishes: a string, a generic list (whose elements
may or may not all be strings), a string slice, and anything else. -/

inductive CVal where
  | str (s : Str)
  | list (xs : List CVal)
  | strList (xs : List Str)
  | other

/-- The element loop of getStringSlice on a generic list: all elements
must be strings. -/
def collectStrs : List CVal → Option (List Str)
  | [] => some []
  | .str s :: rest => (collectStrs rest).map (fun ss => s :: ss)
  | _ :: _ => none

/-- getStringSlice from imports_forbidden.go: extract a string slice
from the config map by key, failing on a missing key, a non-list value
or a list with a non-string element. -/
def getStringSlice (cfg : List (String × CVal)) (key : String) : Except String (List Str) :=
  match cfg.lookup key with
  | none => .error ("missing config key " ++ key)
  | some (.list xs) =>
    match collectStrs xs with
    | some ss => .ok ss
    | none => .error ("config key " ++ key ++ ": expected string elements")
  | some (.strList ss) => .ok ss
  | some _ => .error ("config key " ++ key ++ ": expected string slice")

/-! ### Checkers (checker_types.go and the three rule files) -/

/-- CheckContext: everything a rule checker needs. -/
structure CheckContext where
  changedFiles : List Str
  diffContent : Str
  ruleConfig : List (String × CVal)
  severity : Str
  ruleID : Str
  ruleDesc : Str

/-- Violation: one rule violation found during checking.  The
llmExplanation field is left empty by the engine and the checkers. -/
structure Violation where
  ruleID : Str
  severity : Str
  description : Str
  filePath : Str
  diffSnippet : Str
  llmExplanation : Str

/-- The violation literal the checkers build for a file and snippet. -/
def mkViolation (ctx : CheckContext) (file snippet : Str) : Violation :=
  ⟨ctx.ruleID, ctx.severity, ctx.ruleDesc, file, snippet, []⟩

/-- extractPathSegments from imports_forbidden.go: trim trailing star
characters, then trailing slashes, keeping nonempty results. -/
def extractPathSegments (globs : List Str) : List Str :=
  globs.filterMap (fun g =>
    let s := trimRightChar '/' (trimRightChar '*' g)
    if s.isEmpty then none else some s)

/-- containsSegment from imports_forbidden.go. -/
def containsSegment (line segment : Str) : Bool :=
  containsSub line (segment ++ ['/']) || containsSub line (segment ++ ['.'])

/-- The per-path lookup into the map built by imports_forbidden.go from
the parsed file diffs; on a duplicated path the last entry wins, as a
Go map insertion loop would make it. -/
def diffMapLookup (fds : List FileDiff) (p : Str) : Option FileDiff :=
  fds.reverse.find? (fun fd => fd.path == p)

/-- ImportsForbiddenChecker.Check. -/
def importsForbiddenCheck (ctx : CheckContext) : Except String (List Violation) :=
  match getStringSlice ctx.ruleConfig "from_globs" with
  | .error e => .error ("imports_forbidden: " ++ e)
  | .ok fromGlobs =>
    match getStringSlice ctx.ruleConfig "forbid_globs" with
    | .error e => .error ("imports_forbidden: " ++ e)
    | .ok forbidGlobs =>
      let fileDiffs := ParseDiff ctx.diffContent
      let forbidSegments := extractPathSegments forbidGlobs
      .ok (ctx.changedFiles.flatMap (fun file =>
        if !matchesAnyGlob file fromGlobs then []
        else
          match diffMapLookup fileDiffs file with
          | none => []
          | some fd =>
            (fd.addedLines.filter
                (fun l => forbidSegments.any (fun seg => containsSegment l seg))).map
              (fun l => mkViolation ctx file ('+' :: l))))

/-- The scan phase of DiffPatternForbiddenChecker.Check over a chosen
set of files: one violation per added line matching some compiled
forbidden regex, in files belonging to the set. -/
def forbiddenScan (ctx : CheckContext) (compiled : List Re) (filesToCheck : List Str) : List Violation :=
  (ParseDiff ctx.diffContent).flatMap (fun fd =>
    if !filesToCheck.contains fd.path then []
    else
      (fd.addedLines.filter (fun l => compiled.any (fun re => reMatchAnywhere re l))).map
        (fun l => mkViolation ctx fd.path ('+' :: l)))

/-- DiffPatternForbiddenChecker.Check.  Note that the extraction error
for only_in_paths is discarded: Go assigns the zero value and ignores
the error, so a malformed value behaves like an absent one. -/
def diffPatternForbiddenCheck (ctx : CheckContext) : Except String (List Violation) :=
  match getStringSlice ctx.ruleConfig "forbidden_regexes" with
  | .error e => .error ("diff_pattern_forbidden: " ++ e)
  | .ok forbiddenRegexes =>
    match compileAll "diff_pattern_forbidden" forbiddenRegexes with
    | .error e => .error e
    | .ok compiled =>
      let onlyInPaths :=
        match getStringSlice ctx.ruleConfig "only_in_paths" with
        | .ok ps => ps
        | .error _ => []
      if !onlyInPaths.isEmpty then
        let filesToCheck := filterFilesByGlobs ctx.changedFiles onlyInPaths
        if filesToCheck.isEmpty then .ok []
        else .ok (forbiddenScan ctx compiled filesToCheck)
      else .ok (forbiddenScan ctx compiled ctx.changedFiles)

/-- DiffPatternRequiresChecker.Check. -/
def diffPatternRequiresCheck (ctx : CheckContext) : Except String (List Violation) :=
  match getStringSlice ctx.ruleConfig "required_regexes" with
  | .error e => .error ("diff_pattern_requires: " ++ e)
  | .ok requiredRegexes =>
    match getStringSlice ctx.ruleConfig "only_in_paths" with
    | .error e => .error ("diff_pattern_requires: " ++ e)
    | .ok onlyInPaths =>
      match filterFilesByGlobs ctx.changedFiles onlyInPaths with
      | [] => .ok []
      | firstMatched :: _ =>
        match compileAll "diff_pattern_requires" requiredRegexes with
        | .error e => .error e
        | .ok compiled =>
          if (ParseDiff ctx.diffContent).any
              (fun fd => fd.addedLines.any (fun l => compiled.any (fun re => reMatchAnywhere re l))) then
            .ok []
          else .ok [mkViolation ctx firstMatched []]

/-! ### Engine (engine.go) -/

/-- Rule: one configured rule. -/
structure Rule where
  id : Str
  description : Str
  type : String
  config : List (String × CVal)
  severity : Str

/-- Exception: a time-bounded waiver.  expiresAt carries the expiry
instant in nanoseconds when present. -/
structure Exception where
  id : Str
  ruleID : Str
  paths : List Str
  expiresAt : Option Int

/-- EngineResult: surviving violations and the severity tallies. -/
structure EngineResult where
  violations : List Violation
  errors : Nat
  warnings : Nat

/-- The global checker registry as populated by the engine package
init: exactly the three shipped checkers, keyed by their type names. -/
def registryLookup (t : String) : Option (CheckContext → Except String (List Violation)) :=
  if t = "imports_forbidden" then some importsForbiddenCheck
  else if t = "diff_pattern_forbidden" then some diffPatternForbiddenCheck
  else if t = "diff_pattern_requires" then some diffPatternRequiresCheck
  else none

/-- Has this exception expired by now?  Go: exc.ExpiresAt is non-nil
and before now. -/
def exceptionExpired (now : Int) (exc : Exception) : Bool :=
  match exc.expiresAt with
  | some t => decide (t < now)
  | none => false

/-- isExcepted from engine.go: some exception has the violation rule id
and a path pattern that filepath-matches the violation file path (a
pattern whose Match errors is skipped). -/
def isExcepted (v : Violation) (exceptions : List Exception) : Bool :=
  exceptions.any (fun exc =>
    exc.ruleID == v.ruleID && exc.paths.any (fun pat => patMatches pat v.filePath))

/-- applyExceptions from engine.go: keep only violations not covered by
a non-expired exception.  now stands for the time.Now() call of the
source. -/
def applyExceptions (now : Int) (exceptions : List Exception) (violations : List Violation) : List Violation :=
  let activeExceptions := exceptions.filter (fun exc => !exceptionExpired now exc)
  if activeExceptions.isEmpty then violations
  else violations.filter (fun v => !isExcepted v activeExceptions)

/-- The per-rule body of the Engine.Run loop: dispatch on the rule type
through the registry and run the checker. -/
def runRule (changedFiles : List Str) (diffContent : Str) (rule : Rule) : Except String (List Violation) :=
  match registryLookup rule.type with
  | none => .error ("unknown rule type " ++ rule.type ++ " for rule")
  | some checker =>
    match checker ⟨changedFiles, diffContent, rule.config, rule.severity, rule.id, rule.description⟩ with
    | .error e => .error ("checking rule: " ++ e)
    | .ok vs => .ok vs

/-- The rule loop of Engine.Run: run every rule in declaration order,
concatenating violations and failing fast on the first error. -/
def runRules (changedFiles : List Str) (diffContent : Str) : List Rule → Except String (List Violation)
  | [] => .ok []
  | r :: rest =>
    match runRule changedFiles diffContent r with
    | .error e => .error e
    | .ok vs =>
      match runRules changedFiles diffContent rest with
      | .error e => .error e
      | .ok more => .ok (vs ++ more)

/-- Engine.Run: run every rule, failing fast on the first error; filter
the concatenated violations through the exceptions; tally the
surviving severities. -/
def engineRun (rules : List Rule) (exceptions : List Exception) (now : Int)
    (changedFiles : List Str) (diffContent : Str) : Except String EngineResult :=
  match runRules changedFiles diffContent rules with
  | .error e => .error e
  | .ok allViolations =>
    let filtered := applyExceptions now exceptions allViolations
    .ok ⟨filtered,
      filtered.countP (fun v => v.severity == "error".toList),
      filtered.countP (fun v => v.severity == "warning".toList)⟩

/-! ### Governance data model (config package)

Only the fields the governance core reads are embedded.  Emails, role
names, rule ids and result labels are ordinary Lean strings here; Go
float64 thresholds are modelled as exact rationals; Go time.Time and
int timestamps are integers counting nanoseconds. -/

/-- QuorumConfig from the constitution. -/
structure QuorumConfig where
  type : String
  threshold : ℚ

/-- A reference to a role designated as a voting body. -/
structure VoterRef where
  role : String

/-- One member of a role. -/
structure RoleMember where
  email : String

/-- A role: a list of members. -/
structure Role where
  members : List RoleMember

/-- A per-rule governance override. -/
structure RuleOverride where
  quorum : QuorumConfig

/-- The governance section of the constitution. -/
structure Governance where
  voters : List VoterRef
  quorum : QuorumConfig
  perRuleOverrides : List (String × RuleOverride)
  proposalTTLDays : Int

/-- The constitution: governance settings plus the role map (an
association list standing for the Go map, with unique keys). -/
structure Constitution where
  governance : Governance
  roles : List (String × Role)

/-- A proposal; createdAt in nanoseconds. -/
structure Proposal where
  id : String
  ruleID : String
  createdAt : Int

/-- A vote record. -/
structure Vote where
  proposalID : String
  voterEmail : String
  decision : String

/-- QuorumResult from quorum.go.  The counts are naturals (they count
voters); required is an integer, as the Go int arithmetic that produces
it can in principle go negative for exotic custom thresholds. -/
structure QuorumResult where
  required : Int
  yesVotes : Nat
  noVotes : Nat
  totalEligible : Nat
  result : String

/-- TallyResult from tally.go. -/
structure TallyResult where
  proposalID : String
  ruleID : String
  eligibleVoters : List String
  votes : List Vote
  quorumResult : QuorumResult
  quorumConfig : QuorumConfig
  isExpired : Bool

/-! ### Quorum calculation (quorum.go) -/

/-- The exact ceiling of a rational, through the computable floor; the
Go source computes the same value with math.Ceil on float64. -/
def ceilQ (q : ℚ) : Int :=
  -((-q).floor)

/-- calculateRequired from quorum.go. -/
def calculateRequired (qc : QuorumConfig) (totalEligible : Nat) : Int :=
  if qc.type = "majority" then (totalEligible : Int) / 2 + 1
  else if qc.type = "two_thirds" then ceilQ ((totalEligible : ℚ) * 2 / 3)
  else if qc.type = "unanimous" then (totalEligible : Int)
  else if qc.type = "custom" then ceilQ ((totalEligible : ℚ) * qc.threshold)
  else (totalEligible : Int) / 2 + 1

/-- CalculateQuorum from quorum.go. -/
def CalculateQuorum (qc : QuorumConfig) (totalEligible yesVotes noVotes : Nat) : QuorumResult :=
  let required := calculateRequired qc totalEligible
  let result :=
    if (yesVotes : Int) ≥ required then "ACCEPTED"
    else if (noVotes : Int) > (totalEligible : Int) - required then "REJECTED"
    else "PENDING"
  ⟨required, yesVotes, noVotes, totalEligible, result⟩

/-! ### Eligible voters (roles.go) -/

/-- The inner member loop of GetEligibleVoters: emit each email not yet
seen, in order, and report the grown seen set for the remaining voter
roles. -/
def dedupStep (seen : List String) : List String → List String × List String
  | [] => ([], seen)
  | e :: es =>
    if e ∈ seen then dedupStep seen es
    else ((dedupStep (e :: seen) es).1.cons e, (dedupStep (e :: seen) es).2)

/-- The outer loop of GetEligibleVoters: walk the declared voter roles
in order, skipping references to undefined roles, emitting each member
email not yet seen and threading the seen set across roles. -/
def gevGo (roles : List (String × Role)) (seen : List String) : List VoterRef → List String
  | [] => []
  | vr :: vrs =>
    match roles.lookup vr.role with
    | none => gevGo roles seen vrs
    | some role =>
      (dedupStep seen (role.members.map (fun m => m.email))).1 ++
        gevGo roles (dedupStep seen (role.members.map (fun m => m.email))).2 vrs

/-- GetEligibleVoters from roles.go. -/
def GetEligibleVoters (c : Constitution) : List String :=
  gevGo c.roles [] c.governance.voters

/-! ### Tally (tally.go) -/

/-- Nanoseconds in a day: the Duration arithmetic of tally.go scales
ttlDays by 24 hours. -/
def nsPerDay : Int := 86400000000000

/-- The vote-counting loop of ComputeTally: yes and no counts over the
votes whose voter email is eligible; any other decision string counts
as neither. -/
def countVotes (eligible : List String) (votes : List Vote) : Nat × Nat :=
  votes.foldl
    (fun acc v =>
      if !eligible.contains v.voterEmail then acc
      else if v.decision = "yes" then (acc.1 + 1, acc.2)
      else if v.decision = "no" then (acc.1, acc.2 + 1)
      else acc)
    (0, 0)

/-- The TTL expiry check of ComputeTally: a positive proposal TTL whose
end lies strictly before now. -/
def tallyExpired (now : Int) (proposal : Proposal) (c : Constitution) : Bool :=
  if 0 < c.governance.proposalTTLDays then
    decide (proposal.createdAt + c.governance.proposalTTLDays * nsPerDay < now)
  else false

/-- The quorum-config resolution of ComputeTally: the per-rule override
when one exists for the proposal rule, else the default. -/
def tallyQuorumConfig (proposal : Proposal) (c : Constitution) : QuorumConfig :=
  match c.governance.perRuleOverrides.lookup proposal.ruleID with
  | some override => override.quorum
  | none => c.governance.quorum

/-- The pre-override quorum result of ComputeTally. -/
def tallyQuorumBase (proposal : Proposal) (votes : List Vote) (c : Constitution) : QuorumResult :=
  let eligibleVoters := GetEligibleVoters c
  let counts := countVotes eligibleVoters votes
  CalculateQuorum (tallyQuorumConfig proposal c) eligibleVoters.length counts.1 counts.2

/-- ComputeTally from tally.go; now stands for the time.Now() call. -/
def ComputeTally (now : Int) (proposal : Proposal) (votes : List Vote) (constitution : Constitution) : TallyResult :=
  let eligibleVoters := GetEligibleVoters constitution
  let isExpired := tallyExpired now proposal constitution
  let quorumResult := tallyQuorumBase proposal votes constitution
  let quorumResult :=
    if isExpired then { quorumResult with result := "EXPIRED" } else quorumResult
  ⟨proposal.id, proposal.ruleID, eligibleVoters, votes, quorumResult,
    tallyQuorumConfig proposal constitution, isExpired⟩

/-! ## Helper lemmas -/

/-- The computable rational ceiling agrees with the mathematical one. -/
theorem ceilQ_eq_ceil (q : ℚ) : ceilQ q = ⌈q⌉ := by
  have h1 : ⌈(-(-q) : ℚ)⌉ = -⌊-q⌋ := Int.ceil_neg
  rw [neg_neg] at h1
  rw [h1]
  rfl

/-! ## Claim C1: quorum calculation -/

/-- Claim C1: CalculateQuorum computes required as the floored half of
totalEligible plus one for the majority type and for any unknown or
empty type (never erroring), the ceiling of two thirds of totalEligible
for two_thirds, totalEligible for unanimous, and the ceiling of
totalEligible times the threshold for custom; the result is ACCEPTED
iff yesVotes reaches required, otherwise REJECTED iff noVotes exceeds
totalEligible minus required, otherwise PENDING; and for majority with
zero eligible voters and no votes, required is one and the result is
REJECTED. -/
theorem calculateQuorum_spec (qc : QuorumConfig) (n yes no : Nat) :
    (qc.type = "majority" → (CalculateQuorum qc n yes no).required = (n : Int) / 2 + 1) ∧
    (qc.type = "two_thirds" → (CalculateQuorum qc n yes no).required = ⌈(n : ℚ) * 2 / 3⌉) ∧
    (qc.type = "unanimous" → (CalculateQuorum qc n yes no).required = (n : Int)) ∧
    (qc.type = "custom" → (CalculateQuorum qc n yes no).required = ⌈(n : ℚ) * qc.threshold⌉) ∧
    (qc.type ∉ (["majority", "two_thirds", "unanimous", "custom"] : List String) →
      (CalculateQuorum qc n yes no).required = (n : Int) / 2 + 1) ∧
    ((CalculateQuorum qc n yes no).result = "ACCEPTED" ↔
      (yes : Int) ≥ (CalculateQuorum qc n yes no).required) ∧
    ((CalculateQuorum qc n yes no).result = "REJECTED" ↔
      ¬(yes : Int) ≥ (CalculateQuorum qc n yes no).required ∧
        (no : Int) > (n : Int) - (CalculateQuorum qc n yes no).required) ∧
    ((CalculateQuorum qc n yes no).result = "PENDING" ↔
      ¬(yes : Int) ≥ (CalculateQuorum qc n yes no).required ∧
        ¬(no : Int) > (n : Int) - (CalculateQuorum qc n yes no).required) ∧
    CalculateQuorum ⟨"majority", qc.threshold⟩ 0 0 0 = ⟨1, 0, 0, 0, "REJECTED"⟩ := by
  have hreq : (CalculateQuorum qc n yes no).required = calculateRequired qc n := rfl
  have hres : (CalculateQuorum qc n yes no).result =
      (if (yes : Int) ≥ calculateRequired qc n then "ACCEPTED"
       else if (no : Int) > (n : Int) - calculateRequired qc n then "REJECTED"
       else "PENDING") := rfl
  refine ⟨?_, ?_, ?_, ?_, ?_, ?_, ?_, ?_, ?_⟩
  · intro h; rw [hreq]; simp [calculateRequired, h]
  · intro h; rw [hreq]; simp [calculateRequired, h, ceilQ_eq_ceil]
  · intro h; rw [hreq]; simp [calculateRequired, h]
  · intro h; rw [hreq]; simp [calculateRequired, h, ceilQ_eq_ceil]
  · intro h
    simp only [List.mem_cons, List.mem_singleton, not_or] at h
    rw [hreq]
    simp [calculateRequired, h.1, h.2.1, h.2.2.1, h.2.2.2]
  · rw [hres, hreq]
    generalize calculateRequired qc n = R
    by_cases h1 : (yes : Int) ≥ R
    · simp [h1]
    · rw [if_neg h1]
      by_cases h2 : (no : Int) > (n : Int) - R
      · rw [if_pos h2]; simp [h1]
      · rw [if_neg h2]; simp [h1]
  · rw [hres, hreq]
    generalize calculateRequired qc n = R
    by_cases h1 : (yes : Int) ≥ R
    · rw [if_pos h1]; simp [h1]
    · rw [if_neg h1]
      by_cases h2 : (no : Int) > (n : Int) - R
      · rw [if_pos h2]; simp [h1, h2]
      · rw [if_neg h2]; simp [h1, h2]
  · rw [hres, hreq]
    generalize calculateRequired qc n = R
    by_cases h1 : (yes : Int) ≥ R
    · rw [if_pos h1]; simp [h1]
    · rw [if_neg h1]
      by_cases h2 : (no : Int) > (n : Int) - R
      · rw [if_pos h2]; simp [h1, h2]
      · rw [if_neg h2]; simp [h1, h2]
  · rfl

/-- Witness for claim C1, at the two-thirds boundary of the spec:
three eligible voters need two yes votes, and two yes with one no is
ACCEPTED. -/
theorem calculateQuorum_spec_witness :
    (CalculateQuorum ⟨"two_thirds", 0⟩ 3 2 1).required = ⌈(3 : ℚ) * 2 / 3⌉ ∧
    (CalculateQuorum ⟨"two_thirds", 0⟩ 3 2 1).result = "ACCEPTED" :=
  ⟨(calculateQuorum_spec ⟨"two_thirds", 0⟩ 3 2 1).2.1 rfl,
    ((calculateQuorum_spec ⟨"two_thirds", 0⟩ 3 2 1).2.2.2.2.2.1).mpr (by
      have h : (CalculateQuorum ⟨"two_thirds", 0⟩ 3 2 1).required = 2 := by
        show calculateRequired ⟨"two_thirds", 0⟩ 3 = 2
        rw [calculateRequired]
        norm_num [ceilQ_eq_ceil]
      rw [h]
      norm_num)⟩

/-! ## Claim C3: tally expiry -/

/-- Claim C3: ComputeTally reports expiry exactly when the proposal TTL
is positive and now lies strictly beyond createdAt plus ttlDays days,
and an expired tally always reports the EXPIRED result, regardless of
the vote counts. -/
theorem computeTally_expiry (now : Int) (p : Proposal) (votes : List Vote) (c : Constitution) :
    ((ComputeTally now p votes c).isExpired = true ↔
      0 < c.governance.proposalTTLDays ∧
        p.createdAt + c.governance.proposalTTLDays * nsPerDay < now) ∧
    ((ComputeTally now p votes c).isExpired = true →
      (ComputeTally now p votes c).quorumResult.result = "EXPIRED") := by
  have hexp : (ComputeTally now p votes c).isExpired = tallyExpired now p c := rfl
  have hq : (ComputeTally now p votes c).quorumResult =
      (if tallyExpired now p c then { tallyQuorumBase p votes c with result := "EXPIRED" }
       else tallyQuorumBase p votes c) := rfl
  constructor
  · rw [hexp]
    unfold tallyExpired
    by_cases h : 0 < c.governance.proposalTTLDays
    · simp [h]
    · simp [h]
  · intro h
    rw [hexp] at h
    rw [hq, h]
    rfl

/-- Witness for claim C3: a proposal created at time zero with a
seven-day TTL, tallied ten days later with unanimous yes votes, is
EXPIRED rather than ACCEPTED. -/
theorem computeTally_expiry_witness :
    (ComputeTally (10 * nsPerDay)
        ⟨"p", "r", 0⟩
        [⟨"p", "a@b", "yes"⟩]
        ⟨⟨[⟨"v"⟩], ⟨"majority", 0⟩, [], 7⟩, [("v", ⟨[⟨"a@b"⟩]⟩)]⟩).quorumResult.result = "EXPIRED" :=
  (computeTally_expiry (10 * nsPerDay) ⟨"p", "r", 0⟩ [⟨"p", "a@b", "yes"⟩]
      ⟨⟨[⟨"v"⟩], ⟨"majority", 0⟩, [], 7⟩, [("v", ⟨[⟨"a@b"⟩]⟩)]⟩).2 (by decide)


/-! ## Claim C7: eligible-voter deduplication -/

/-- First-occurrence-wins deduplication relative to an already-seen
set, the shape of the Go seen-map loop. -/
def dedupSeen (seen : List String) : List String → List String
  | [] => []
  | x :: xs => if x ∈ seen then dedupSeen seen xs else x :: dedupSeen (x :: seen) xs

/-- First-occurrence-wins deduplication of a list, as the claim words
it: keep the first occurrence of each element, in order. -/
def dedupFirst : List String → List String
  | [] => []
  | x :: xs => x :: dedupFirst (xs.filter (fun y => !(y == x)))
termination_by l => l.length
decreasing_by simp only [List.length_cons]; exact Nat.lt_succ_of_le (List.length_filter_le _ _)

/-- The emails reachable through the declared voter roles, in
declaration order, with references to undefined roles silently
skipped. -/
def voterEmails (roles : List (String × Role)) : List VoterRef → List String
  | [] => []
  | vr :: vrs =>
    (match roles.lookup vr.role with
     | none => []
     | some role => role.members.map (fun m => m.email)) ++ voterEmails roles vrs

/-- Seen-set deduplication of a concatenation: the first block is
deduplicated by the inner member loop, the rest against its grown seen
set. -/
theorem dedupSeen_append (L : List String) : ∀ (es seen : List String),
    dedupSeen seen (es ++ L) = (dedupStep seen es).1 ++ dedupSeen (dedupStep seen es).2 L := by
  intro es
  induction es with
  | nil => intro seen; rfl
  | cons e es ih =>
    intro seen
    by_cases h : e ∈ seen
    · simp only [List.cons_append, dedupSeen, dedupStep, if_pos h]
      exact ih seen
    · simp only [List.cons_append, dedupSeen, dedupStep, if_neg h, List.append_eq]
      rw [ih (e :: seen)]

/-- The loops of GetEligibleVoters compute the seen-set deduplication
of the flattened voter-role emails. -/
theorem gev_eq_dedupSeen (roles : List (String × Role)) (vrs : List VoterRef) :
    ∀ seen, gevGo roles seen vrs = dedupSeen seen (voterEmails roles vrs) := by
  induction vrs with
  | nil => intro seen; rfl
  | cons vr vrs ih =>
    intro seen
    cases hl : roles.lookup vr.role with
    | none => simp only [gevGo, hl, voterEmails, List.nil_append]; exact ih seen
    | some role =>
      simp only [gevGo, hl, voterEmails]
      rw [dedupSeen_append, ih]

/-- Seen-set deduplication is plain first-wins deduplication of the
elements outside the seen set. -/
theorem dedupSeen_eq_dedupFirst (L : List String) :
    ∀ seen, dedupSeen seen L = dedupFirst (L.filter (fun y => !seen.contains y)) := by
  induction L with
  | nil => intro seen; simp [dedupSeen, dedupFirst]
  | cons x xs ih =>
    intro seen
    by_cases h : x ∈ seen
    · have hc : (!seen.contains x) = false := by simp [h]
      simp only [dedupSeen, if_pos h, List.filter_cons, hc]
      exact ih seen
    · have hc : (!seen.contains x) = true := by simp [h]
      simp only [dedupSeen, if_neg h, List.filter_cons, hc, if_true]
      rw [ih (x :: seen)]
      have hfilter : xs.filter (fun y => !(x :: seen).contains y) =
          (xs.filter (fun y => !seen.contains y)).filter (fun y => !(y == x)) := by
        rw [List.filter_filter]
        apply List.filter_congr
        intro a _
        simp [List.contains_cons]
        tauto
      rw [hfilter]
      simp only [dedupFirst]

/-- Seen-set deduplication yields no duplicates and avoids the seen
set. -/
theorem dedupSeen_nodup (L : List String) :
    ∀ seen, (dedupSeen seen L).Nodup ∧ ∀ x ∈ dedupSeen seen L, x ∉ seen := by
  induction L with
  | nil => intro seen; simp [dedupSeen]
  | cons x xs ih =>
    intro seen
    by_cases h : x ∈ seen
    · simp only [dedupSeen, if_pos h]
      exact ih seen
    · simp only [dedupSeen, if_neg h]
      obtain ⟨hnd, hout⟩ := ih (x :: seen)
      refine ⟨List.nodup_cons.mpr ⟨fun hx => ?_, hnd⟩, ?_⟩
      · exact hout x hx (List.mem_cons_self x seen)
      · intro y hy
        rcases List.mem_cons.mp hy with rfl | hy'
        · exact h
        · intro hys
          exact hout y hy' (List.mem_cons_of_mem x hys)

/-- Claim C7: GetEligibleVoters walks the declared voter roles in
order, silently skipping undefined role references, and emits each
member email at most once, first occurrence winning with insertion
order preserved; in particular the result never repeats an email. -/
theorem getEligibleVoters_spec (c : Constitution) :
    (GetEligibleVoters c).Nodup ∧
    GetEligibleVoters c = dedupFirst (voterEmails c.roles c.governance.voters) := by
  have h1 : GetEligibleVoters c = dedupSeen [] (voterEmails c.roles c.governance.voters) :=
    gev_eq_dedupSeen c.roles c.governance.voters []
  constructor
  · rw [h1]
    exact (dedupSeen_nodup (voterEmails c.roles c.governance.voters) []).1
  · rw [h1, dedupSeen_eq_dedupFirst]
    congr 1
    apply List.filter_eq_self.mpr
    intro a _
    simp

/-! ## Claim C2: exception filtering

The claim reads activity as expiresAt strictly after now.  The source
drops an exception only when its expiry lies strictly before now, so an
exception expiring exactly at the evaluation instant still suppresses;
the claim is therefore refuted at that boundary and holds with the
non-strict reading. -/

/-- The claim reading of activity: expiresAt absent or strictly after
now. -/
def exceptionActiveStrict (now : Int) (exc : Exception) : Bool :=
  match exc.expiresAt with
  | none => true
  | some t => decide (now < t)

/-- The reading the source implements: expiresAt absent or not earlier
than now. -/
def exceptionActiveLax (now : Int) (exc : Exception) : Bool :=
  match exc.expiresAt with
  | none => true
  | some t => decide (now ≤ t)

/-- Is the violation suppressed per the claim: some exception of the
list, active in the given reading, carries the violation rule id and a
path glob-matching the violation file path under filepath.Match
semantics? -/
def suppressedBy (active : Int → Exception → Bool) (now : Int)
    (exceptions : List Exception) (v : Violation) : Bool :=
  exceptions.any (fun exc =>
    active now exc &&
      (exc.ruleID == v.ruleID && exc.paths.any (fun pat => patMatches pat v.filePath)))

/-- Activity as the source computes it is the non-strict reading. -/
theorem not_expired_eq_lax (now : Int) (exc : Exception) :
    (!exceptionExpired now exc) = exceptionActiveLax now exc := by
  unfold exceptionExpired exceptionActiveLax
  cases exc.expiresAt with
  | none => rfl
  | some t =>
    simp only [← decide_not, decide_eq_decide]
    omega

/-- Claim C2 as amended: after all rules have run, applyExceptions
drops a violation if and only if some exception that is active at
evaluation time now, where an exception is active iff its expiresAt is
absent or expiresAt is not earlier than now, has the violation rule id
and a path that glob-matches the violation file path under standard
filepath.Match semantics; an exception already expired strictly before
now, or one with a different rule id, never suppresses. -/
theorem applyExceptions_spec (now : Int) (excs : List Exception) (vs : List Violation) :
    applyExceptions now excs vs =
      vs.filter (fun v => !suppressedBy exceptionActiveLax now excs v) := by
  unfold applyExceptions
  by_cases hempty : (excs.filter (fun exc => !exceptionExpired now exc)).isEmpty
  · rw [if_pos hempty]
    have hnone : ∀ exc ∈ excs, ¬((!exceptionExpired now exc) = true) := by
      rw [List.isEmpty_iff] at hempty
      exact fun exc hm => (List.filter_eq_nil_iff.mp hempty) exc hm
    refine (List.filter_eq_self.mpr ?_).symm
    intro v _
    simp only [Bool.not_eq_eq_eq_not, Bool.not_true, suppressedBy]
    rw [List.any_eq_false]
    intro exc hm
    have hact : exceptionActiveLax now exc = false := by
      have := hnone exc hm
      rw [not_expired_eq_lax] at this
      simpa using this
    simp [hact]
  · rw [if_neg hempty]
    apply List.filter_congr
    intro v _
    congr 1
    unfold isExcepted suppressedBy
    rw [List.any_filter]
    congr 1
    funext exc
    rw [not_expired_eq_lax]

/-- A concrete exception expiring exactly at the evaluation instant. -/
def excC2 : Exception :=
  ⟨"e".toList, "r".toList, ["*".toList], some 0⟩

/-- A concrete violation the exception covers. -/
def vC2 : Violation :=
  ⟨"r".toList, "w".toList, "d".toList, "a".toList, [], []⟩

/-- Counterexample to claim C2 as stated: at now zero, the exception
expiring exactly now still suppresses the violation, although reading
activity as expiresAt strictly after now says no active exception
covers it. -/
theorem applyExceptions_strict_counterexample :
    applyExceptions 0 [excC2] [vC2] = [] ∧
    suppressedBy exceptionActiveStrict 0 [excC2] vC2 = false :=
  ⟨rfl, rfl⟩

/-! ## Claim C4: recursive-wildcard glob matching -/

/-- The tail loop of globMatch expressed as the existential the claim
states: some index i for which the segments from i onward, joined by
slashes, filepath-match the suffix. -/
theorem tailsMatch_eq_any (suffix : Str) (segs : List Str) :
    tailsMatch suffix segs =
      (List.range segs.length).any (fun i => patMatches suffix (joinSlash (segs.drop i))) := by
  induction segs with
  | nil => simp [tailsMatch]
  | cons p rest ih =>
    have hstep : tailsMatch suffix (p :: rest) =
        (patMatches suffix (joinSlash (p :: rest)) || tailsMatch suffix rest) := by
      cases hm : filepathMatch suffix (joinSlash (p :: rest)) with
      | ok b => cases b <;> simp [tailsMatch, patMatches, hm]
      | error e => simp [tailsMatch, patMatches, hm]
    rw [hstep, ih, List.length_cons, List.range_succ_eq_map]
    simp [List.any_cons, List.any_map, Function.comp_def, List.drop_succ_cons]

/-- The claim description of matching a pattern containing a recursive
wildcard: split the pattern once at the first double star; a nonempty
prefix part (trailing slash trimmed) must lead the path, else no match;
an empty suffix part (leading slash trimmed, per the worked example of
the claim) matches anything under the prefix; a nonempty suffix must
filepath-match some tail-subpath, segments i onward joined by slashes,
of the remaining path after the prefix is stripped. -/
def specDoubleStar (path pattern : Str) : Bool :=
  match splitFirst ['*', '*'] pattern with
  | none => false
  | some (preRaw, sufRaw) =>
    let suffix := trimLeftChar '/' sufRaw
    let pre := if preRaw.isEmpty then preRaw else trimRightChar '/' preRaw
    if !preRaw.isEmpty && !(pre.isPrefixOf path) then false
    else if !suffix.isEmpty then
      let remaining := if pre.isEmpty then path else trimLeftChar '/' (trimPre pre path)
      let segs := splitChar '/' remaining
      (List.range segs.length).any (fun i => patMatches suffix (joinSlash (segs.drop i)))
    else true

/-- Claim C4: on every pattern containing a recursive wildcard,
globMatch behaves as the prefix plus any-tail-suffix description
states; in particular the two worked examples of the claim hold. -/
theorem globMatch_doubleStar_spec (path pattern : Str)
    (h : containsSub pattern ['*', '*'] = true) :
    globMatch path pattern = specDoubleStar path pattern ∧
    globMatch "src/model.kt".toList "**/*.kt".toList = true ∧
    globMatch "docs/readme.md".toList "**/*.kt".toList = false := by
  refine ⟨?_, by decide, by decide⟩
  unfold globMatch specDoubleStar
  rw [h]
  simp only [if_true]
  cases hsplit : splitFirst ['*', '*'] pattern with
  | none => rfl
  | some pr =>
    obtain ⟨parts0, parts1⟩ := pr
    simp only [tailsMatch_eq_any]

/-- Witness for claim C4 at the first worked example of the claim. -/
theorem globMatch_doubleStar_spec_witness :
    globMatch "src/model.kt".toList "**/*.kt".toList =
      specDoubleStar "src/model.kt".toList "**/*.kt".toList :=
  (globMatch_doubleStar_spec "src/model.kt".toList "**/*.kt".toList (by decide)).1

/-! ## Claim C9: diff parsing distributes over concatenation -/

/-- Splitting never yields an empty field list. -/
theorem splitChar_ne_nil (sep : Char) (s : Str) : splitChar sep s ≠ [] := by
  cases s with
  | nil => simp [splitChar]
  | cons c rest =>
    simp only [splitChar]
    split
    · simp
    · split <;> simp

/-- Splitting distributes over concatenation at a separator. -/
theorem splitChar_append (sep : Char) (a b : Str) :
    splitChar sep (a ++ sep :: b) = splitChar sep a ++ splitChar sep b := by
  induction a with
  | nil => simp [splitChar]
  | cons c a ih =>
    by_cases hc : c = sep
    · subst hc
      simp [splitChar, ih]
    · simp only [List.cons_append, splitChar, if_neg hc, List.append_eq]
      rw [ih]
      obtain ⟨l, ls, hl⟩ : ∃ l ls, splitChar sep a = l :: ls := by
        cases h : splitChar sep a with
        | nil => exact absurd h (splitChar_ne_nil sep a)
        | cons l ls => exact ⟨l, ls, rfl⟩
      rw [hl]
      simp

/-- The first field of a split string inherits any separator-free front
segment of the string. -/
theorem splitChar_head_pre (sep : Char) (p : Str) :
    ∀ s : Str, p.isPrefixOf s = true → sep ∉ p →
      ∃ l ls, splitChar sep s = l :: ls ∧ p.isPrefixOf l = true := by
  induction p with
  | nil =>
    intro s _ _
    obtain ⟨l, ls, hl⟩ : ∃ l ls, splitChar sep s = l :: ls := by
      cases h : splitChar sep s with
      | nil => exact absurd h (splitChar_ne_nil sep s)
      | cons l ls => exact ⟨l, ls, rfl⟩
    exact ⟨l, ls, hl, by cases l <;> rfl⟩
  | cons c p ih =>
    intro s hp hsep
    cases s with
    | nil => exact absurd hp (by simp [List.isPrefixOf])
    | cons a s =>
      have hp2 : (c == a && p.isPrefixOf s) = true := hp
      have hca : c = a := by
        have := (Bool.and_eq_true _ _).mp hp2
        exact eq_of_beq this.1
      have hps : p.isPrefixOf s = true := ((Bool.and_eq_true _ _).mp hp2).2
      have hane : ¬a = sep := by
        intro has
        exact hsep (by simp [hca, has])
      obtain ⟨l, ls, hl, hpl⟩ := ih s hps (fun hm => hsep (List.mem_cons_of_mem c hm))
      refine ⟨a :: l, ls, ?_, ?_⟩
      · simp only [splitChar, if_neg hane, hl]
      · show (c == a && p.isPrefixOf l) = true
        simp [hca, hpl]

/-- One parser step from an arbitrary accumulated result equals the
step from the empty result, shifted. -/
theorem pdStep_shift (r : List FileDiff) (cur : Option FileDiff) (line : Str) :
    pdStep (r, cur) line = (r ++ (pdStep ([], cur) line).1, (pdStep ([], cur) line).2) := by
  unfold pdStep
  by_cases h : ("diff --git ".toList).isPrefixOf line = true
  · simp only [if_pos h, List.nil_append]
  · simp only [if_neg h, List.append_nil]

/-- The parser fold from an arbitrary accumulated result equals the
fold from the empty result, shifted. -/
theorem pdFoldl_shift (L : List Str) :
    ∀ (r : List FileDiff) (cur : Option FileDiff),
      L.foldl pdStep (r, cur) =
        (r ++ (L.foldl pdStep ([], cur)).1, (L.foldl pdStep ([], cur)).2) := by
  induction L with
  | nil => intro r cur; simp
  | cons l L ih =>
    intro r cur
    rw [List.foldl_cons, List.foldl_cons, pdStep_shift r cur l]
    rcases hpd : pdStep ([], cur) l with ⟨a1, c1⟩
    rw [ih (r ++ a1) c1, ih a1 c1]
    simp [List.append_assoc]

/-- A file-separator line flushes the accumulator and opens a fresh
one. -/
theorem pdStep_flush (r : List FileDiff) (cur : Option FileDiff) (line : Str)
    (h : ("diff --git ".toList).isPrefixOf line = true) :
    pdStep (r, cur) line = (r ++ cur.toList, some ⟨[], []⟩) := by
  unfold pdStep
  rw [if_pos h]

/-- Claim C9: for two diff texts that each begin with a file-separator
line, joined by a newline so the second starts on a fresh separator
line, parsing the concatenation equals concatenating the parses. -/
theorem parseDiff_append (s1 s2 : Str)
    (h1 : ("diff --git ".toList).isPrefixOf s1 = true)
    (h2 : ("diff --git ".toList).isPrefixOf s2 = true) :
    ParseDiff (s1 ++ '\n' :: s2) = ParseDiff s1 ++ ParseDiff s2 := by
  have hne1 : s1.isEmpty = false := by
    cases s1 with
    | nil => exact absurd h1 (by decide)
    | cons a t => rfl
  have hne2 : s2.isEmpty = false := by
    cases s2 with
    | nil => exact absurd h2 (by decide)
    | cons a t => rfl
  have hnec : (s1 ++ '\n' :: s2).isEmpty = false := by
    cases s1 <;> rfl
  obtain ⟨l0, rest, hsplit2, hl0⟩ := splitChar_head_pre '\n' _ s2 h2 (by decide)
  have hflush0 : pdStep ([], (none : Option FileDiff)) l0 = ([], some ⟨[], []⟩) := by
    rw [pdStep_flush [] none l0 hl0]; rfl
  simp only [ParseDiff, hne1, hne2, hnec, Bool.false_eq_true, if_false]
  rw [splitChar_append, List.foldl_append, hsplit2]
  rcases hA : (splitChar '\n' s1).foldl pdStep ([], (none : Option FileDiff)) with ⟨r1, c1⟩
  rw [List.foldl_cons, List.foldl_cons, pdStep_flush r1 c1 l0 hl0, hflush0]
  rcases hY : rest.foldl pdStep ([], (some ⟨[], []⟩ : Option FileDiff)) with ⟨r2, c2⟩
  rw [pdFoldl_shift rest (r1 ++ c1.toList) (some ⟨[], []⟩), hY]
  simp [pdFinish, List.append_assoc]

/-- Witness for claim C9 on two small concrete diffs. -/
theorem parseDiff_append_witness :
    ParseDiff ("diff --git a\n+x".toList ++ '\n' :: "diff --git b\n+y".toList) =
      ParseDiff "diff --git a\n+x".toList ++ ParseDiff "diff --git b\n+y".toList :=
  parseDiff_append _ _ (by decide) (by decide)

/-! ## Claim C5: the imports_forbidden segment heuristic -/

/-- Claim C5: with well-formed from_globs and forbid_globs, the checker
flags, for each changed file that matches some from_globs pattern and
appears in the parsed diff, exactly those added lines containing
segment-slash or segment-dot for some segment obtained from
forbid_globs by stripping trailing star and slash characters, one
violation per offending line. -/
theorem importsForbidden_spec (ctx : CheckContext) (fromGlobs forbidGlobs : List Str)
    (h1 : getStringSlice ctx.ruleConfig "from_globs" = .ok fromGlobs)
    (h2 : getStringSlice ctx.ruleConfig "forbid_globs" = .ok forbidGlobs) :
    importsForbiddenCheck ctx = .ok (ctx.changedFiles.flatMap (fun file =>
      if matchesAnyGlob file fromGlobs then
        match diffMapLookup (ParseDiff ctx.diffContent) file with
        | some fd =>
          (fd.addedLines.filter (fun line => (extractPathSegments forbidGlobs).any
              (fun seg => containsSub line (seg ++ ['/']) || containsSub line (seg ++ ['.'])))).map
            (fun line => mkViolation ctx file ('+' :: line))
        | none => []
      else [])) := by
  simp only [importsForbiddenCheck, h1, h2]
  congr 1
  congr 1
  funext file
  by_cases hm : matchesAnyGlob file fromGlobs
  · simp only [hm, Bool.not_true, Bool.false_eq_true, if_false, if_true, containsSegment]
    cases diffMapLookup (ParseDiff ctx.diffContent) file <;> rfl
  · simp [hm, containsSegment]

/-- The worked example of claim C5. -/
def ctxC5 : CheckContext :=
  ⟨["d/a.kt".toList],
    ("diff --git a\n+++ b/d/a.kt\n+import com.myapp.infra.database.UserRepository").toList,
    [("from_globs", CVal.strList ["d/**".toList]),
     ("forbid_globs", CVal.strList ["infra/**".toList])],
    "e".toList, "g".toList, "n".toList⟩

/-- Witness for claim C5: the added line importing
com.myapp.infra.database.UserRepository is flagged when forbid_globs
is infra double-star, because the line contains infra-dot. -/
theorem importsForbidden_spec_witness :
    importsForbiddenCheck ctxC5 =
      .ok [mkViolation ctxC5 "d/a.kt".toList
        ('+' :: "import com.myapp.infra.database.UserRepository".toList)] :=
  (importsForbidden_spec ctxC5 ["d/**".toList] ["infra/**".toList] rfl rfl).trans (by rfl)

/-! ## Claim C6: the diff_pattern_requires checker -/

/-- Claim C6: with well-formed configuration, the checker returns no
violation when no changed file matches only_in_paths; otherwise it
returns no violation when any added line anywhere in the entire diff
matches some required regex; otherwise it returns exactly one
violation, whose file path is the first changed file that matched
only_in_paths. -/
theorem diffPatternRequires_spec (ctx : CheckContext)
    (requiredRegexes onlyInPaths : List Str) (compiled : List Re)
    (h1 : getStringSlice ctx.ruleConfig "required_regexes" = .ok requiredRegexes)
    (h2 : getStringSlice ctx.ruleConfig "only_in_paths" = .ok onlyInPaths)
    (h3 : compileAll "diff_pattern_requires" requiredRegexes = .ok compiled) :
    diffPatternRequiresCheck ctx = .ok (
      match filterFilesByGlobs ctx.changedFiles onlyInPaths with
      | [] => []
      | firstMatched :: _ =>
        if (ParseDiff ctx.diffContent).any (fun fd => fd.addedLines.any
            (fun l => compiled.any (fun re => reMatchAnywhere re l))) then []
        else [mkViolation ctx firstMatched []]) := by
  simp only [diffPatternRequiresCheck, h1, h2]
  cases hf : filterFilesByGlobs ctx.changedFiles onlyInPaths with
  | nil => rfl
  | cons f fs =>
    rw [h3]
    by_cases hany : (ParseDiff ctx.diffContent).any (fun fd => fd.addedLines.any
        (fun l => compiled.any (fun re => reMatchAnywhere re l))) = true
    · simp [hany]
    · simp [hany]

/-- A changed file matching only_in_paths whose required pattern only
appears in an unrelated file of the same diff. -/
def ctxC6 : CheckContext :=
  ⟨["db/m.sql".toList, "d.md".toList],
    ("diff --git a\n+++ b/d.md\n+OK").toList,
    [("required_regexes", CVal.strList ["OK".toList]),
     ("only_in_paths", CVal.strList ["db/*".toList])],
    "e".toList, "q".toList, "n".toList⟩

/-- Witness for claim C6, on the cross-file scenario of the spec: the
required pattern found in an unrelated changed file still satisfies
the requirement. -/
theorem diffPatternRequires_spec_witness :
    diffPatternRequiresCheck ctxC6 = .ok [] :=
  (diffPatternRequires_spec ctxC6 ["OK".toList] ["db/*".toList] _ rfl rfl rfl).trans (by rfl)

/-! ## Claim C10: malformed only_in_paths is ignored by diff_pattern_forbidden -/

/-- Claim C10: when the config carries an only_in_paths value that is
present but malformed, diff_pattern_forbidden does not fail on it; the
extraction error is discarded, the key behaves as absent, and every
changed file is scanned for the forbidden regexes. -/
theorem diffPatternForbidden_malformed_paths (ctx : CheckContext) (v : CVal) (e : String)
    (_hpresent : ctx.ruleConfig.lookup "only_in_paths" = some v)
    (herr : getStringSlice ctx.ruleConfig "only_in_paths" = .error e) :
    diffPatternForbiddenCheck ctx =
      (match getStringSlice ctx.ruleConfig "forbidden_regexes" with
       | .error e2 => .error ("diff_pattern_forbidden: " ++ e2)
       | .ok forbiddenRegexes =>
         match compileAll "diff_pattern_forbidden" forbiddenRegexes with
         | .error e2 => .error e2
         | .ok compiled => .ok (forbiddenScan ctx compiled ctx.changedFiles)) := by
  cases h1 : getStringSlice ctx.ruleConfig "forbidden_regexes" with
  | error e2 => simp only [diffPatternForbiddenCheck, h1]
  | ok frs =>
    cases h2 : compileAll "diff_pattern_forbidden" frs with
    | error e2 => simp only [diffPatternForbiddenCheck, h1, h2]
    | ok compiled =>
      simp only [diffPatternForbiddenCheck, h1, h2, herr]
      rfl

/-- A config whose only_in_paths is a bare string rather than a list. -/
def ctxC10 : CheckContext :=
  ⟨["a.kt".toList],
    ("diff --git a\n+++ b/a.kt\n+TODO").toList,
    [("forbidden_regexes", CVal.strList ["TODO".toList]),
     ("only_in_paths", CVal.str "x".toList)],
    "w".toList, "t".toList, "n".toList⟩

/-- Witness for claim C10: with a malformed only_in_paths the checker
still succeeds and scans the changed file, flagging its offending
line. -/
theorem diffPatternForbidden_malformed_paths_witness :
    diffPatternForbiddenCheck ctxC10 =
      .ok [mkViolation ctxC10 "a.kt".toList ('+' :: "TODO".toList)] :=
  (diffPatternForbidden_malformed_paths ctxC10 (CVal.str "x".toList)
      "config key only_in_paths: expected string slice" rfl rfl).trans (by rfl)

/-! ## Claim C8: the engine fails fast on a bad rule

The claim is refuted as stated: a diff_pattern_requires rule whose
regex fails to compile does not fail the run when no changed file
matches its only_in_paths, because that checker returns before
compiling.  With that proviso the fail-fast property holds. -/

/-- Is an Except result an error? -/
def isErrE {ε α : Type} : Except ε α → Bool
  | .error _ => true
  | .ok _ => false

/-- The amended bad-rule predicate: an unregistered type, a missing or
malformed required config key, or a configured regex failing to
compile at a point its checker reaches (a diff_pattern_requires rule
compiles its regexes only when some changed file matches
only_in_paths). -/
def ruleBad (changedFiles : List Str) (r : Rule) : Bool :=
  if r.type = "imports_forbidden" then
    isErrE (getStringSlice r.config "from_globs") || isErrE (getStringSlice r.config "forbid_globs")
  else if r.type = "diff_pattern_forbidden" then
    match getStringSlice r.config "forbidden_regexes" with
    | .error _ => true
    | .ok rs => rs.any (fun p => isErrE (compileRe p))
  else if r.type = "diff_pattern_requires" then
    match getStringSlice r.config "required_regexes", getStringSlice r.config "only_in_paths" with
    | .error _, _ => true
    | .ok _, .error _ => true
    | .ok rs, .ok ps =>
      decide (filterFilesByGlobs changedFiles ps ≠ []) && rs.any (fun p => isErrE (compileRe p))
  else true

/-- A regex list with a failing member makes the compilation loop
fail. -/
theorem compileAll_error_of_any (tag : String) (rs : List Str)
    (h : rs.any (fun p => isErrE (compileRe p)) = true) :
    ∃ e, compileAll tag rs = .error e := by
  induction rs with
  | nil => simp at h
  | cons p rest ih =>
    rw [List.any_cons] at h
    cases hc : compileRe p with
    | error e => exact ⟨tag ++ ": invalid regex: " ++ e, by simp [compileAll, hc]⟩
    | ok r =>
      have hrest : rest.any (fun q => isErrE (compileRe q)) = true := by
        rw [Bool.or_eq_true] at h
        rcases h with h1 | h2
        · rw [hc] at h1; exact absurd h1 (by simp [isErrE])
        · exact h2
      obtain ⟨e, he⟩ := ih hrest
      exact ⟨e, by simp [compileAll, hc, he]⟩

/-- A bad rule makes its dispatch-and-check step fail. -/
theorem runRule_error_of_bad (cf : List Str) (dc : Str) (r : Rule)
    (h : ruleBad cf r = true) : ∃ e, runRule cf dc r = .error e := by
  by_cases h1 : r.type = "imports_forbidden"
  · rw [ruleBad, if_pos h1] at h
    cases hg1 : getStringSlice r.config "from_globs" with
    | error e1 =>
      exact ⟨"checking rule: " ++ ("imports_forbidden: " ++ e1),
        by simp [runRule, registryLookup, h1, importsForbiddenCheck, hg1]⟩
    | ok fg =>
      cases hg2 : getStringSlice r.config "forbid_globs" with
      | error e2 =>
        exact ⟨"checking rule: " ++ ("imports_forbidden: " ++ e2),
          by simp [runRule, registryLookup, h1, importsForbiddenCheck, hg1, hg2]⟩
      | ok bg =>
        rw [hg1, hg2] at h
        simp [isErrE] at h
  · by_cases h2 : r.type = "diff_pattern_forbidden"
    · rw [ruleBad, if_neg h1, if_pos h2] at h
      cases hg1 : getStringSlice r.config "forbidden_regexes" with
      | error e1 =>
        exact ⟨"checking rule: " ++ ("diff_pattern_forbidden: " ++ e1),
          by simp [runRule, registryLookup, h1, h2, diffPatternForbiddenCheck, hg1]⟩
      | ok rs =>
        rw [hg1] at h
        obtain ⟨e, he⟩ := compileAll_error_of_any "diff_pattern_forbidden" rs h
        exact ⟨"checking rule: " ++ e,
          by simp [runRule, registryLookup, h1, h2, diffPatternForbiddenCheck, hg1, he]⟩
    · by_cases h3 : r.type = "diff_pattern_requires"
      · rw [ruleBad, if_neg h1, if_neg h2, if_pos h3] at h
        cases hg1 : getStringSlice r.config "required_regexes" with
        | error e1 =>
          exact ⟨"checking rule: " ++ ("diff_pattern_requires: " ++ e1),
            by simp [runRule, registryLookup, h1, h2, h3, diffPatternRequiresCheck, hg1]⟩
        | ok rs =>
          cases hg2 : getStringSlice r.config "only_in_paths" with
          | error e2 =>
            exact ⟨"checking rule: " ++ ("diff_pattern_requires: " ++ e2),
              by simp [runRule, registryLookup, h1, h2, h3, diffPatternRequiresCheck, hg1, hg2]⟩
          | ok ps =>
            rw [hg1, hg2] at h
            rw [Bool.and_eq_true] at h
            have hparts := h
            have hfil : filterFilesByGlobs cf ps ≠ [] := of_decide_eq_true hparts.1
            obtain ⟨e, he⟩ := compileAll_error_of_any "diff_pattern_requires" rs hparts.2
            cases hf : filterFilesByGlobs cf ps with
            | nil => exact absurd hf hfil
            | cons f fs =>
              exact ⟨"checking rule: " ++ e,
                by simp [runRule, registryLookup, h1, h2, h3, diffPatternRequiresCheck,
                  hg1, hg2, hf, he]⟩
      · refine ⟨"unknown rule type " ++ r.type ++ " for rule", ?_⟩
        simp [runRule, registryLookup, h1, h2, h3]

/-- Claim C8 as amended: if any configured rule is bad in the amended
sense, Engine.Run fails fast and returns an error instead of a
result. -/
theorem engineRun_failfast (rules : List Rule) (excs : List Exception) (now : Int)
    (cf : List Str) (dc : Str)
    (h : rules.any (ruleBad cf) = true) :
    ∃ msg, engineRun rules excs now cf dc = .error msg := by
  suffices hs : ∃ msg, runRules cf dc rules = .error msg by
    obtain ⟨m, hm⟩ := hs
    exact ⟨m, by simp [engineRun, hm]⟩
  induction rules with
  | nil => simp at h
  | cons r rest ih =>
    rw [List.any_cons] at h
    by_cases hb : ruleBad cf r = true
    · obtain ⟨e, he⟩ := runRule_error_of_bad cf dc r hb
      exact ⟨e, by simp [runRules, he]⟩
    · have hrest : rest.any (ruleBad cf) = true := by
        rw [Bool.or_eq_true] at h
        rcases h with hx | hx
        · exact absurd hx hb
        · exact hx
      cases hr : runRule cf dc r with
      | error e => exact ⟨e, by simp [runRules, hr]⟩
      | ok vs =>
        obtain ⟨e, he⟩ := ih hrest
        exact ⟨e, by simp [runRules, hr, he]⟩

/-- A diff_pattern_requires rule with an uncompilable regex and a path
scope matching no changed file. -/
def ruleC8 : Rule :=
  ⟨"r".toList, "d".toList, "diff_pattern_requires",
    [("required_regexes", CVal.strList ["(".toList]),
     ("only_in_paths", CVal.strList ["x/*".toList])],
    "e".toList⟩

/-- Counterexample to claim C8 as stated: the configured regex fails to
compile, yet the run succeeds with an empty result because the
checker returns before compiling when no changed file matches
only_in_paths. -/
theorem engineRun_regex_counterexample :
    isErrE (compileRe "(".toList) = true ∧
    engineRun [ruleC8] [] 0 ["y".toList] [] = .ok ⟨[], 0, 0⟩ := by
  constructor
  · rfl
  · rfl

/-- A rule whose type is absent from the registry. -/
def ruleC8bad : Rule :=
  ⟨"r".toList, "d".toList, "bogus", [], "e".toList⟩

/-- Witness for claim C8: a run containing a rule of unknown type is an
error. -/
theorem engineRun_failfast_witness :
    isErrE (engineRun [ruleC8bad] [] 0 [] []) = true := by
  obtain ⟨m, hm⟩ := engineRun_failfast [ruleC8bad] [] 0 [] [] (by decide)
  rw [hm]
  rfl

end Guardian
